import Mathlib

/-
  Verification of the device crypto identity store (`device/crypto.go` of
  astarte-device-sdk-go) against its natural-language specification.

  Shallow embedding.  The contents of the `crypto` directory are modelled as an
  association list from file names to file entries (content plus permission
  mode).  Go standard-library primitives that this code calls (PEM parsing of
  arbitrary text, X.509 parsing, RSA key generation, TLS key-pair matching) and
  the possible I/O failures of the operating system are collected in an
  environment record `Env`: every theorem quantifies over all environments, so
  nothing is assumed about the parts of the standard library the program does
  not control.  Byte strings produced by the marshalling functions that the
  program itself calls are kept symbolic (`Bytes`), so that e.g. a PKCS#1 blob
  written by `savePEMKey` is later recognised by `x509.ParsePKCS1PrivateKey`.
-/

set_option maxHeartbeats 1000000

namespace Astarte

/-- RSA private key (`rsa.PrivateKey`), abstracted to an identity and the bit
size it was generated with; the public key is the `pkix` projection of the same
value, mirroring `key.PublicKey` in Go. -/
structure RSAKey where
  id : Nat
  bits : Nat
deriving DecidableEq

/-- X.509 signature algorithms (`x509.SignatureAlgorithm`), restricted to the
ones that can appear here. -/
inductive SigAlg where
  | sha256WithRSA
  | sha1WithRSA
  | ecdsaWithSHA256
deriving DecidableEq

/-- The template of `x509.CertificateRequest`: `Subject.CommonName`,
`Subject.Organization` and `SignatureAlgorithm`, the only fields the program
sets. -/
structure CertificateRequest where
  commonName : String
  organization : List String
  signatureAlgorithm : SigAlg
deriving DecidableEq

/-- DER byte strings, symbolic.  `arbitrary n` stands for bytes that did not
come from one of the program's own marshalling calls; the other constructors
are the images of `x509.MarshalPKCS1PrivateKey`, `x509.MarshalPKIXPublicKey`
and `x509.CreateCertificateRequest`. -/
inductive Bytes where
  | arbitrary (n : Nat)
  | pkcs1 (k : RSAKey)
  | pkix (k : RSAKey)
  | csrDER (template : CertificateRequest) (key : RSAKey)
deriving DecidableEq

/-- A PEM block (`pem.Block`): a type tag and the enclosed DER bytes. -/
structure PemBlock where
  type : String
  bytes : Bytes
deriving DecidableEq

/-- Content of a file.  `raw s` is text handed in from outside (the certificate
string stored verbatim by `saveCertificateFromString`); `pemFile bs` is a file
holding the PEM encoding of the blocks `bs` in order, as produced by
`pem.Encode` (a freshly created, not yet written file is `pemFile []`). -/
inductive Content where
  | raw (s : String)
  | pemFile (blocks : List PemBlock)
deriving DecidableEq

/-- The one field of a parsed X.509 certificate the program looks at. -/
structure Certificate where
  notAfter : Int
deriving DecidableEq

/-- An opaque loaded TLS certificate/key pair (`tls.Certificate`). -/
structure TLSCert where
  id : Nat
deriving DecidableEq

/-- Result of `x509.ParsePKCS8PrivateKey`, which returns `interface{}`: either
an RSA key or some non-RSA key. -/
inductive ParsedKey where
  | rsa (k : RSAKey)
  | nonRSA (n : Nat)
deriving DecidableEq

/-- The distinct error values the program can return.  Distinct constructors
correspond to errors produced at distinct program points. -/
inductive GoErr where
  | notFound
  | ioErr
  | tlsNoCertPem
  | tlsPairFailed
  | genFailed
  | marshalFailed
  | signFailed
  | corruptedKey
  | parseKeyFailed
  | notRSA
  | pemDecodeFailed
deriving DecidableEq

/-- A file entry: its content and its permission mode (e.g. `0o600 = 384`,
`0o666 = 438`). -/
structure FileEntry where
  content : Content
  mode : Nat
deriving DecidableEq

/-- The crypto directory: an association list from file name to entry, in
directory order. -/
abbrev FS := List (String × FileEntry)

/-- First entry with the given name, if any (a file exists iff this is
`some`). -/
def FS.lookup : FS → String → Option FileEntry
  | [], _ => none
  | (m, e) :: rest, n => if m = n then some e else FS.lookup rest n

/-- Replace the entry for `n` in place, or append it. -/
def FS.insert : FS → String → FileEntry → FS
  | [], n, e => [(n, e)]
  | (m, d) :: rest, n, e =>
    if m = n then (n, e) :: rest else (m, d) :: FS.insert rest n e

/-- Remove every entry named `n` (`os.Remove`). -/
def FS.erase : FS → String → FS
  | [], _ => []
  | (m, e) :: rest, n =>
    if m = n then FS.erase rest n else (m, e) :: FS.erase rest n

/-- Environment: the behaviour of the Go standard library and of the operating
system on the inputs the program may feed them.  Function-valued fields are
oracles; `Bool`-valued fields are fault switches for the corresponding I/O
call. -/
structure Env where
  /-- `pem.Decode` on arbitrary text: the list of PEM blocks the text encodes,
  in order (empty when the text holds no PEM block). -/
  parseRawPem : String → List PemBlock
  /-- `x509.ParseCertificate` on DER bytes. -/
  parseCert : Bytes → Option Certificate
  /-- `x509.ParsePKCS1PrivateKey` on bytes that are not a PKCS#1 marshalling
  done by this program. -/
  pkcs1OfArb : Nat → Option RSAKey
  /-- `x509.ParsePKCS8PrivateKey` on arbitrary bytes. -/
  pkcs8OfArb : Nat → Option ParsedKey
  /-- The rest of `tls.X509KeyPair` once at least one CERTIFICATE block was
  found: leaf parsing and private-key matching against the key file content. -/
  tlsPair : List PemBlock → Content → Option TLSCert
  /-- `rsa.GenerateKey rand.Reader bits`: `none` when randomness or generation
  fails. -/
  generateKey : Nat → Option RSAKey
  /-- Whether `x509.CreateCertificateRequest` fails. -/
  csrSignFails : Bool
  /-- Whether `x509.MarshalPKIXPublicKey` fails. -/
  marshalPKIXFails : Bool
  /-- Whether `os.Open` on the crypto directory fails. -/
  openDirFails : Bool
  /-- Whether `Readdir` on the crypto directory fails. -/
  readdirFails : Bool
  /-- Whether `os.Remove` fails on the named file. -/
  removeFails : String → Bool
  /-- Whether `os.Create` fails on the named file. -/
  createFails : String → Bool
  /-- Whether `pem.Encode` to the named open file fails. -/
  encodeFails : String → Bool
  /-- Whether `ioutil.WriteFile` to the named file fails. -/
  writeFileFails : String → Bool
  /-- Whether `ioutil.ReadFile` on an existing named file fails. -/
  readFileFails : String → Bool

/-- The device context: the fields of `Device` that `crypto.go` reads. -/
structure Device where
  realm : String
  deviceID : String
  persistencyDir : String
  rootCAs : Nat
  ignoreSSLErrors : Bool

/-- The `tls.Config` fields the program sets. -/
structure TLSConfig where
  certificates : List TLSCert
  rootCAs : Nat
  insecureSkipVerify : Bool
deriving DecidableEq

/-- The PEM blocks a file content encodes, in order. -/
def pemBlocksOf (E : Env) : Content → List PemBlock
  | .raw s => E.parseRawPem s
  | .pemFile bs => bs

/-- `pem.Decode`: the first PEM block of the content, or `none`. -/
def pemDecode (E : Env) (c : Content) : Option PemBlock :=
  (pemBlocksOf E c).head?

/-- `ioutil.ReadFile`: fails when the file is absent or the read itself
fails. -/
def readFile (E : Env) (fs : FS) (n : String) : Except GoErr Content :=
  if E.readFileFails n then .error .ioErr
  else
    match FS.lookup fs n with
    | none => .error .notFound
    | some e => .ok e.content

/-- `ioutil.WriteFile fs n c perm`: creates the file with permission `perm`
when absent; otherwise truncates and rewrites the content, without changing
permissions (per the documented semantics of `ioutil.WriteFile` /
`os.WriteFile`). -/
def writeFile (E : Env) (fs : FS) (n : String) (c : Content) (perm : Nat) :
    Except GoErr Unit × FS :=
  if E.writeFileFails n then (.error .ioErr, fs)
  else
    match FS.lookup fs n with
    | some e => (.ok (), FS.insert fs n ⟨c, e.mode⟩)
    | none => (.ok (), FS.insert fs n ⟨c, perm⟩)

/-- `os.Create`: creates (mode `0o666 = 438` before umask) or truncates the
file, leaving it empty. -/
def createFile (E : Env) (fs : FS) (n : String) : Except GoErr Unit × FS :=
  if E.createFails n then (.error .ioErr, fs)
  else
    match FS.lookup fs n with
    | some e => (.ok (), FS.insert fs n ⟨.pemFile [], e.mode⟩)
    | none => (.ok (), FS.insert fs n ⟨.pemFile [], 438⟩)

/-- `pem.Encode` of one block to a just-created (hence empty) open file. -/
def pemEncodeTo (E : Env) (fs : FS) (n : String) (blk : PemBlock) :
    Except GoErr Unit × FS :=
  if E.encodeFails n then (.error .ioErr, fs)
  else
    match FS.lookup fs n with
    | some e => (.ok (), FS.insert fs n ⟨.pemFile [blk], e.mode⟩)
    | none => (.ok (), FS.insert fs n ⟨.pemFile [blk], 438⟩)

/-- `x509.ParsePKCS1PrivateKey`. -/
def parsePKCS1 (E : Env) : Bytes → Option RSAKey
  | .pkcs1 k => some k
  | .arbitrary n => E.pkcs1OfArb n
  | _ => none

/-- `x509.ParsePKCS8PrivateKey` (PKIX public keys, PKCS#1 private keys and CSR
DER are not valid PKCS#8). -/
def parsePKCS8 (E : Env) : Bytes → Option ParsedKey
  | .arbitrary n => E.pkcs8OfArb n
  | _ => none

/-- `x509.MarshalPKIXPublicKey` on the public part of an RSA key. -/
def marshalPKIXPublicKey (E : Env) (k : RSAKey) : Except GoErr Bytes :=
  if E.marshalPKIXFails then .error .marshalFailed else .ok (.pkix k)

/-- `x509.CreateCertificateRequest rand.Reader template key`. -/
def createCertificateRequest (E : Env) (t : CertificateRequest) (k : RSAKey) :
    Except GoErr Bytes :=
  if E.csrSignFails then .error .signFailed else .ok (.csrDER t k)

/-- `tls.X509KeyPair`: fails when the certificate content holds no PEM block of
type CERTIFICATE; otherwise defers to the environment for leaf parsing and key
matching. -/
def x509KeyPair (E : Env) (certC keyC : Content) : Except GoErr TLSCert :=
  match (pemBlocksOf E certC).filter (fun b => b.type = "CERTIFICATE") with
  | [] => .error .tlsNoCertPem
  | b :: rest =>
    match E.tlsPair (b :: rest) keyC with
    | none => .error .tlsPairFailed
    | some c => .ok c

/-- `tls.LoadX509KeyPair`: reads both files, then `x509.X509KeyPair`. -/
def loadX509KeyPair (E : Env) (fs : FS) (certFile keyFile : String) :
    Except GoErr TLSCert :=
  match readFile E fs certFile with
  | .error e => .error e
  | .ok certC =>
    match readFile E fs keyFile with
    | .error e => .error e
    | .ok keyC => x509KeyPair E certC keyC

/-- Remove the listed files one by one, stopping at the first failure
(the loop body of `ClearCrypto`). -/
def removeFiles (E : Env) (fs : FS) : List String → Except GoErr Unit × FS
  | [] => (.ok (), fs)
  | n :: rest =>
    if E.removeFails n then (.error .ioErr, fs)
    else removeFiles E (FS.erase fs n) rest

/-- `Device.ClearCrypto`: open the directory, list it, remove every listed
file. -/
def clearCrypto (E : Env) (fs : FS) : Except GoErr Unit × FS :=
  if E.openDirFails then (.error .ioErr, fs)
  else if E.readdirFails then (.error .ioErr, fs)
  else removeFiles E fs (fs.map Prod.fst)

/-- `Device.hasValidCertificate`.  The result is `none` when the Go code would
dereference a nil pointer (the unchecked `block.Bytes` after `pem.Decode`),
`some b` when it returns the boolean `b`. -/
def hasValidCertificate (E : Env) (now : Int) (fs : FS) : Option Bool :=
  match loadX509KeyPair E fs "device.crt" "device.key" with
  | .error _ => some false
  | .ok _ =>
    match readFile E fs "device.crt" with
    | .error _ => some false
    | .ok r =>
      match pemDecode E r with
      | none => none
      | some block =>
        match E.parseCert block.bytes with
        | none => some false
        | some cert => some (decide (now < cert.notAfter))

/-- `Device.getTLSConfig`. -/
def getTLSConfig (E : Env) (d : Device) (fs : FS) : Except GoErr TLSConfig :=
  match loadX509KeyPair E fs "device.crt" "device.key" with
  | .error e => .error e
  | .ok cert => .ok ⟨[cert], d.rootCAs, d.ignoreSSLErrors⟩

/-- `savePEMKey`: create the file, then PEM-encode the PKCS#1 marshalling of
the key with block type RSA PRIVATE KEY. -/
def savePEMKey (E : Env) (fs : FS) (fileName : String) (key : RSAKey) :
    Except GoErr Unit × FS :=
  match createFile E fs fileName with
  | (.error e, fs') => (.error e, fs')
  | (.ok _, fs') => pemEncodeTo E fs' fileName ⟨"RSA PRIVATE KEY", .pkcs1 key⟩

/-- `savePublicPEMKey`: marshal the public key as PKIX, create the file, then
PEM-encode with block type PUBLIC KEY. -/
def savePublicPEMKey (E : Env) (fs : FS) (fileName : String) (pubkey : RSAKey) :
    Except GoErr Unit × FS :=
  match marshalPKIXPublicKey E pubkey with
  | .error e => (.error e, fs)
  | .ok pkixBytes =>
    match createFile E fs fileName with
    | (.error e, fs') => (.error e, fs')
    | (.ok _, fs') => pemEncodeTo E fs' fileName ⟨"PUBLIC KEY", pkixBytes⟩

/-- `Device.ensureKeyPair`: no-op when `device.key` exists; otherwise clear the
directory, generate a 2048-bit RSA key, save the public key and then the
private key. -/
def ensureKeyPair (E : Env) (fs : FS) : Except GoErr Unit × FS :=
  if (FS.lookup fs "device.key").isSome then (.ok (), fs)
  else
    match clearCrypto E fs with
    | (.error e, fs1) => (.error e, fs1)
    | (.ok _, fs1) =>
      match E.generateKey 2048 with
      | none => (.error .genFailed, fs1)
      | some key =>
        match savePublicPEMKey E fs1 "device.pub" key with
        | (.error e, fs2) => (.error e, fs2)
        | (.ok _, fs2) => savePEMKey E fs2 "device.key" key

/-- The PKCS#1-then-PKCS#8 parsing cascade of `ensureCSR` (`ParsePKCS1` first,
falling back to `ParsePKCS8`). -/
def parseKeyCascade (E : Env) (b : Bytes) : Except GoErr ParsedKey :=
  match parsePKCS1 E b with
  | some k => .ok (.rsa k)
  | none =>
    match parsePKCS8 E b with
    | some pk => .ok pk
    | none => .error .parseKeyFailed

/-- `Device.ensureCSR`. -/
def ensureCSR (E : Env) (d : Device) (fs : FS) : Except GoErr Unit × FS :=
  match ensureKeyPair E fs with
  | (.error e, fs1) => (.error e, fs1)
  | (.ok _, fs1) =>
    if (FS.lookup fs1 "device.csr").isSome then (.ok (), fs1)
    else
      let template : CertificateRequest :=
        ⟨d.realm ++ "/" ++ d.deviceID, ["Devices"], .sha256WithRSA⟩
      match readFile E fs1 "device.key" with
      | .error e => (.error e, fs1)
      | .ok priv =>
        match pemDecode E priv with
        | none => (.error .corruptedKey, fs1)
        | some privPem =>
          match parseKeyCascade E privPem.bytes with
          | .error e => (.error e, fs1)
          | .ok parsedKey =>
            match parsedKey with
            | .nonRSA _ => (.error .notRSA, fs1)
            | .rsa privateKey =>
              match createCertificateRequest E template privateKey with
              | .error e => (.error e, fs1)
              | .ok csrBytes =>
                match createFile E fs1 "device.csr" with
                | (.error e, fs2) => (.error e, fs2)
                | (.ok _, fs2) =>
                  pemEncodeTo E fs2 "device.csr" ⟨"CERTIFICATE REQUEST", csrBytes⟩

/-- `Device.saveCertificateFromString`: PEM-decode to validate, then write the
raw text verbatim with permission `0o600 = 384`. -/
def saveCertificateFromString (E : Env) (certificateString : String) (fs : FS) :
    Except GoErr Unit × FS :=
  match pemDecode E (.raw certificateString) with
  | none => (.error .pemDecodeFailed, fs)
  | some _ => writeFile E fs "device.crt" (.raw certificateString) 384

/-- The directory produced by a key regeneration with key `k`: exactly the
public-key file and the private-key file. -/
def freshPairFS (k : RSAKey) : FS :=
  [("device.pub", ⟨.pemFile [⟨"PUBLIC KEY", .pkix k⟩], 438⟩),
   ("device.key", ⟨.pemFile [⟨"RSA PRIVATE KEY", .pkcs1 k⟩], 438⟩)]

/-- The file-state invariant of claim C9: if the private-key file is present
then so is the public-key file. -/
def KeyImpliesPub (fs : FS) : Prop :=
  (FS.lookup fs "device.key").isSome → (FS.lookup fs "device.pub").isSome

/-- States of the crypto directory reachable from the empty directory through
the state-changing public operations, under arbitrary environments. -/
inductive Reach : FS → Prop
  | empty : Reach []
  | clear (E : Env) (fs : FS) : Reach fs → Reach (clearCrypto E fs).2
  | ensureKey (E : Env) (fs : FS) : Reach fs → Reach (ensureKeyPair E fs).2
  | ensureCsr (E : Env) (d : Device) (fs : FS) :
      Reach fs → Reach (ensureCSR E d fs).2
  | storeCert (E : Env) (s : String) (fs : FS) :
      Reach fs → Reach (saveCertificateFromString E s fs).2

/-- Reachability as in `Reach`, but restricted to environments in which
`os.Remove` never fails (file writes and all other calls may still fail). -/
inductive ReachNR : FS → Prop
  | empty : ReachNR []
  | clear (E : Env) (fs : FS) : (∀ n, E.removeFails n = false) →
      ReachNR fs → ReachNR (clearCrypto E fs).2
  | ensureKey (E : Env) (fs : FS) : (∀ n, E.removeFails n = false) →
      ReachNR fs → ReachNR (ensureKeyPair E fs).2
  | ensureCsr (E : Env) (d : Device) (fs : FS) : (∀ n, E.removeFails n = false) →
      ReachNR fs → ReachNR (ensureCSR E d fs).2
  | storeCert (E : Env) (s : String) (fs : FS) :
      ReachNR fs → ReachNR (saveCertificateFromString E s fs).2

/-- A concrete environment in which every library call and every I/O call
succeeds; used to instantiate the universally quantified theorems on concrete
runs. -/
def testEnv : Env where
  parseRawPem := fun s =>
    if s = "PEM-CERT" then [⟨"CERTIFICATE", .arbitrary 0⟩] else []
  parseCert := fun b =>
    match b with
    | .arbitrary 0 => some ⟨10⟩
    | _ => none
  pkcs1OfArb := fun _ => none
  pkcs8OfArb := fun _ => none
  tlsPair := fun _ _ => some ⟨7⟩
  generateKey := fun bits => some ⟨1, bits⟩
  csrSignFails := false
  marshalPKIXFails := false
  openDirFails := false
  readdirFails := false
  removeFails := fun _ => false
  createFails := fun _ => false
  encodeFails := fun _ => false
  writeFileFails := fun _ => false
  readFileFails := fun _ => false

/-- An environment identical to `testEnv` except that `os.Remove` fails on the
private-key file. -/
def envRemoveKeyFails : Env :=
  { testEnv with removeFails := fun n => n == "device.key" }

/-- A concrete device context. -/
def testDevice : Device where
  realm := "realm"
  deviceID := "dev01"
  persistencyDir := "p"
  rootCAs := 3
  ignoreSSLErrors := false

/-- A concrete directory state holding a valid certificate/key pair for
`testEnv` (the raw certificate text decodes to one CERTIFICATE block there). -/
def fsWithCert : FS :=
  [("device.crt", ⟨.raw "PEM-CERT", 384⟩),
   ("device.key", ⟨.pemFile [⟨"RSA PRIVATE KEY", .pkcs1 ⟨1, 2048⟩⟩], 438⟩)]

/-- A concrete directory state holding key, CSR and certificate files. -/
def fsFull : FS :=
  [("device.key", ⟨.pemFile [⟨"RSA PRIVATE KEY", .pkcs1 ⟨1, 2048⟩⟩], 438⟩),
   ("device.csr", ⟨.pemFile [⟨"CERTIFICATE REQUEST",
      .csrDER ⟨"realm/dev01", ["Devices"], .sha256WithRSA⟩ ⟨1, 2048⟩⟩], 438⟩),
   ("device.crt", ⟨.raw "PEM-CERT", 384⟩)]

theorem FS.lookup_insert_self (fs : FS) (n : String) (e : FileEntry) :
    FS.lookup (FS.insert fs n e) n = some e := by
  induction fs with
  | nil => simp [FS.insert, FS.lookup]
  | cons p rest ih =>
    obtain ⟨m, d⟩ := p
    by_cases h : m = n
    · simp [FS.insert, h, FS.lookup]
    · simp [FS.insert, h, FS.lookup, ih]

theorem FS.lookup_insert_ne (fs : FS) {m n : String} (e : FileEntry)
    (h : m ≠ n) : FS.lookup (FS.insert fs n e) m = FS.lookup fs m := by
  have hnm : n ≠ m := fun hc => h hc.symm
  induction fs with
  | nil => simp [FS.insert, FS.lookup, hnm]
  | cons p rest ih =>
    obtain ⟨q, d⟩ := p
    by_cases hq : q = n
    · subst hq
      have hqm : q ≠ m := hnm
      simp [FS.insert, FS.lookup, hqm]
    · by_cases hm : q = m
      · simp [FS.insert, hq, FS.lookup, hm, h]
      · simp [FS.insert, hq, FS.lookup, hm, ih]

theorem FS.lookup_erase_self (fs : FS) (n : String) :
    FS.lookup (FS.erase fs n) n = none := by
  induction fs with
  | nil => simp [FS.erase, FS.lookup]
  | cons p rest ih =>
    obtain ⟨m, d⟩ := p
    by_cases h : m = n
    · simp [FS.erase, h, ih]
    · simp [FS.erase, h, FS.lookup, ih]

theorem FS.lookup_erase_ne (fs : FS) {m n : String} (h : m ≠ n) :
    FS.lookup (FS.erase fs n) m = FS.lookup fs m := by
  have hnm : n ≠ m := fun hc => h hc.symm
  induction fs with
  | nil => simp [FS.erase]
  | cons p rest ih =>
    obtain ⟨q, d⟩ := p
    by_cases hq : q = n
    · subst hq
      have hqm : q ≠ m := hnm
      simp [FS.erase, FS.lookup, hqm, ih]
    · by_cases hm : q = m
      · simp [FS.erase, hq, FS.lookup, hm, h]
      · simp [FS.erase, hq, FS.lookup, hm, ih]

theorem FS.lookup_eq_none_of_notMem (fs : FS) (m : String)
    (h : m ∉ fs.map Prod.fst) : FS.lookup fs m = none := by
  induction fs with
  | nil => rfl
  | cons p rest ih =>
    obtain ⟨q, d⟩ := p
    simp only [List.map_cons, List.mem_cons] at h
    push_neg at h
    have hq : q ≠ m := fun hc => h.1 hc.symm
    simp [FS.lookup, hq, ih h.2]

theorem FS.lookup_foldl_erase_notMem (ns : List String) (fs : FS) (m : String)
    (h : m ∉ ns) : FS.lookup (ns.foldl FS.erase fs) m = FS.lookup fs m := by
  induction ns generalizing fs with
  | nil => rfl
  | cons n rest ih =>
    simp only [List.mem_cons] at h
    push_neg at h
    simp only [List.foldl_cons]
    rw [ih _ h.2]
    exact FS.lookup_erase_ne fs h.1

theorem FS.lookup_foldl_erase_mem (ns : List String) (fs : FS) (m : String)
    (h : m ∈ ns) : FS.lookup (ns.foldl FS.erase fs) m = none := by
  induction ns generalizing fs with
  | nil => simp at h
  | cons n rest ih =>
    simp only [List.foldl_cons]
    rcases List.mem_cons.mp h with h1 | h1
    · subst h1
      by_cases hm : m ∈ rest
      · exact ih _ hm
      · rw [FS.lookup_foldl_erase_notMem rest _ m hm]
        exact FS.lookup_erase_self fs m
    · exact ih _ h1

theorem FS.eq_nil_of_lookup_none (fs : FS)
    (h : ∀ m, FS.lookup fs m = none) : fs = [] := by
  cases fs with
  | nil => rfl
  | cons p rest =>
    obtain ⟨m, d⟩ := p
    have := h m
    simp [FS.lookup] at this

theorem removeFiles_ok_of (E : Env) (ns : List String) (fs : FS)
    (h : ∀ n ∈ ns, E.removeFails n = false) :
    removeFiles E fs ns = (.ok (), ns.foldl FS.erase fs) := by
  induction ns generalizing fs with
  | nil => rfl
  | cons n rest ih =>
    have hn : E.removeFails n = false := h n (List.mem_cons_self n rest)
    simp only [removeFiles, hn, Bool.false_eq_true, if_false, List.foldl_cons]
    exact ih _ (fun m hm => h m (List.mem_cons_of_mem n hm))

theorem removeFiles_ok_forall (E : Env) (ns : List String) (fs : FS)
    (h : (removeFiles E fs ns).1 = .ok ()) :
    ∀ n ∈ ns, E.removeFails n = false := by
  induction ns generalizing fs with
  | nil => simp
  | cons n rest ih =>
    intro m hm
    by_cases hn : E.removeFails n
    · exfalso
      simp [removeFiles, hn] at h
    · rcases List.mem_cons.mp hm with h1 | h1
      · subst h1
        simpa using hn
      · exact ih (FS.erase fs n) (by simpa [removeFiles, hn] using h) m h1

theorem removeFiles_err (E : Env) (pre : List String) (n : String)
    (post : List String) (fs : FS)
    (hpre : ∀ m ∈ pre, E.removeFails m = false) (hn : E.removeFails n = true) :
    removeFiles E fs (pre ++ n :: post) = (.error .ioErr, pre.foldl FS.erase fs) := by
  induction pre generalizing fs with
  | nil => simp [removeFiles, hn]
  | cons p rest ih =>
    have hp : E.removeFails p = false := hpre p (List.mem_cons_self p rest)
    simp only [List.cons_append, removeFiles, hp, Bool.false_eq_true, if_false,
      List.foldl_cons]
    exact ih _ (fun m hm => hpre m (List.mem_cons_of_mem p hm))

theorem removeFiles_err_shape (E : Env) (ns : List String) (fs : FS) (e : GoErr)
    (h : (removeFiles E fs ns).1 = .error e) : e = .ioErr := by
  induction ns generalizing fs with
  | nil => simp [removeFiles] at h
  | cons n rest ih =>
    by_cases hn : E.removeFails n
    · simp [removeFiles, hn] at h
      exact h.symm
    · exact ih _ (by simpa [removeFiles, hn] using h)

theorem clearCrypto_ok_iff (E : Env) (fs : FS) :
    (clearCrypto E fs).1 = .ok () ↔
      (E.openDirFails = false ∧ E.readdirFails = false ∧
        ∀ n ∈ fs.map Prod.fst, E.removeFails n = false) := by
  constructor
  · intro h
    by_cases h1 : E.openDirFails
    · simp [clearCrypto, h1] at h
    · by_cases h2 : E.readdirFails
      · simp [clearCrypto, h1, h2] at h
      · refine ⟨by simpa using h1, by simpa using h2, ?_⟩
        exact removeFiles_ok_forall E _ fs (by simpa [clearCrypto, h1, h2] using h)
  · rintro ⟨h1, h2, h3⟩
    simp [clearCrypto, h1, h2, removeFiles_ok_of E _ fs h3]

theorem clearCrypto_ok_nil (E : Env) (fs : FS)
    (h : (clearCrypto E fs).1 = .ok ()) : (clearCrypto E fs).2 = [] := by
  obtain ⟨h1, h2, h3⟩ := (clearCrypto_ok_iff E fs).mp h
  have hrw : clearCrypto E fs = (.ok (), (fs.map Prod.fst).foldl FS.erase fs) := by
    simp [clearCrypto, h1, h2, removeFiles_ok_of E _ fs h3]
  rw [hrw]
  refine FS.eq_nil_of_lookup_none _ (fun m => ?_)
  by_cases hm : m ∈ fs.map Prod.fst
  · exact FS.lookup_foldl_erase_mem _ _ _ hm
  · rw [FS.lookup_foldl_erase_notMem _ _ _ hm]
    exact FS.lookup_eq_none_of_notMem fs m hm

theorem clearCrypto_err_shape (E : Env) (fs : FS) (e : GoErr)
    (h : (clearCrypto E fs).1 = .error e) : e = .ioErr := by
  by_cases h1 : E.openDirFails
  · simp [clearCrypto, h1] at h
    exact h.symm
  · by_cases h2 : E.readdirFails
    · simp [clearCrypto, h1, h2] at h
      exact h.symm
    · exact removeFiles_err_shape E _ fs e (by simpa [clearCrypto, h1, h2] using h)

theorem string_pub_ne_key : ("device.pub" : String) ≠ "device.key" := by decide

theorem string_key_ne_pub : ("device.key" : String) ≠ "device.pub" := by decide

theorem ensureKeyPair_noop (E : Env) (fs : FS)
    (h : (FS.lookup fs "device.key").isSome = true) :
    ensureKeyPair E fs = (.ok (), fs) := by
  rw [ensureKeyPair, if_pos h]

theorem ensureKeyPair_ok_cases (E : Env) (fs fs' : FS)
    (h : ensureKeyPair E fs = (.ok (), fs')) :
    ((FS.lookup fs "device.key").isSome = true ∧ fs' = fs) ∨
      (FS.lookup fs "device.key" = none ∧
        ∃ k, E.generateKey 2048 = some k ∧ fs' = freshPairFS k) := by
  by_cases hk : (FS.lookup fs "device.key").isSome
  · left
    refine ⟨hk, ?_⟩
    rw [ensureKeyPair, if_pos hk] at h
    have := congrArg Prod.snd h
    exact this.symm
  · have hk0 : FS.lookup fs "device.key" = none := by
      cases hl : FS.lookup fs "device.key" <;> simp_all
    right
    refine ⟨hk0, ?_⟩
    rw [ensureKeyPair, if_neg hk] at h
    rcases hc : clearCrypto E fs with ⟨r1, fs1⟩
    rw [hc] at h
    cases r1 with
    | error e1 => simp at h
    | ok u1 =>
      have hnil : fs1 = [] := by
        have h1 : (clearCrypto E fs).1 = .ok () := by rw [hc]
        have h2 := clearCrypto_ok_nil E fs h1
        rw [hc] at h2
        exact h2
      subst hnil
      cases hg : E.generateKey 2048 with
      | none => rw [hg] at h; simp at h
      | some k =>
        rw [hg] at h
        refine ⟨k, rfl, ?_⟩
        by_cases hm : E.marshalPKIXFails
        · simp [savePublicPEMKey, marshalPKIXPublicKey, hm] at h
        · by_cases hcr1 : E.createFails "device.pub"
          · simp [savePublicPEMKey, marshalPKIXPublicKey, hm, createFile, hcr1] at h
          · by_cases hen1 : E.encodeFails "device.pub"
            · simp [savePublicPEMKey, marshalPKIXPublicKey, hm, createFile, hcr1,
                pemEncodeTo, hen1, FS.lookup, FS.insert] at h
            · by_cases hcr2 : E.createFails "device.key"
              · simp [savePublicPEMKey, marshalPKIXPublicKey, hm, createFile, hcr1,
                  pemEncodeTo, hen1, savePEMKey, hcr2, FS.lookup, FS.insert] at h
              · by_cases hen2 : E.encodeFails "device.key"
                · simp [savePublicPEMKey, marshalPKIXPublicKey, hm, createFile, hcr1,
                    pemEncodeTo, hen1, savePEMKey, hcr2, hen2, FS.lookup, FS.insert,
                    string_pub_ne_key, string_key_ne_pub] at h
                · simp [savePublicPEMKey, marshalPKIXPublicKey, hm, createFile, hcr1,
                    pemEncodeTo, hen1, savePEMKey, hcr2, hen2, FS.lookup, FS.insert,
                    string_pub_ne_key, string_key_ne_pub, freshPairFS] at h
                  exact h.symm

theorem ensureKeyPair_err_shape (E : Env) (fs fs' : FS) (e : GoErr)
    (h : ensureKeyPair E fs = (.error e, fs')) :
    e = .ioErr ∨ e = .genFailed ∨ e = .marshalFailed := by
  by_cases hk : (FS.lookup fs "device.key").isSome
  · rw [ensureKeyPair, if_pos hk] at h
    simp at h
  · rw [ensureKeyPair, if_neg hk] at h
    rcases hc : clearCrypto E fs with ⟨r1, fs1⟩
    rw [hc] at h
    cases r1 with
    | error e1 =>
      have h1 : (clearCrypto E fs).1 = .error e1 := by rw [hc]
      have h2 := clearCrypto_err_shape E fs e1 h1
      simp at h
      left
      rw [← h.1, h2]
    | ok u1 =>
      have hnil : fs1 = [] := by
        have h1 : (clearCrypto E fs).1 = .ok () := by rw [hc]
        have h2 := clearCrypto_ok_nil E fs h1
        rw [hc] at h2
        exact h2
      subst hnil
      cases hg : E.generateKey 2048 with
      | none =>
        rw [hg] at h
        simp at h
        right
        left
        exact h.1.symm
      | some k =>
        rw [hg] at h
        by_cases hm : E.marshalPKIXFails
        · simp [savePublicPEMKey, marshalPKIXPublicKey, hm] at h
          right
          right
          exact h.1.symm
        · by_cases hcr1 : E.createFails "device.pub"
          · simp [savePublicPEMKey, marshalPKIXPublicKey, hm, createFile, hcr1] at h
            left
            exact h.1.symm
          · by_cases hen1 : E.encodeFails "device.pub"
            · simp [savePublicPEMKey, marshalPKIXPublicKey, hm, createFile, hcr1,
                pemEncodeTo, hen1, FS.lookup, FS.insert] at h
              left
              exact h.1.symm
            · by_cases hcr2 : E.createFails "device.key"
              · simp [savePublicPEMKey, marshalPKIXPublicKey, hm, createFile, hcr1,
                  pemEncodeTo, hen1, savePEMKey, hcr2, FS.lookup, FS.insert] at h
                left
                exact h.1.symm
              · by_cases hen2 : E.encodeFails "device.key"
                · simp [savePublicPEMKey, marshalPKIXPublicKey, hm, createFile, hcr1,
                    pemEncodeTo, hen1, savePEMKey, hcr2, hen2, FS.lookup, FS.insert,
                    string_pub_ne_key, string_key_ne_pub] at h
                  left
                  exact h.1.symm
                · simp [savePublicPEMKey, marshalPKIXPublicKey, hm, createFile, hcr1,
                    pemEncodeTo, hen1, savePEMKey, hcr2, hen2, FS.lookup, FS.insert,
                    string_pub_ne_key, string_key_ne_pub] at h

theorem ensureKeyPair_ok_key_present (E : Env) (fs fs' : FS)
    (h : ensureKeyPair E fs = (.ok (), fs')) :
    (FS.lookup fs' "device.key").isSome = true := by
  rcases ensureKeyPair_ok_cases E fs fs' h with ⟨h1, h2⟩ | ⟨h1, k, hg, h2⟩
  · rw [h2]
    exact h1
  · rw [h2]
    simp [freshPairFS, FS.lookup, string_pub_ne_key]

theorem x509KeyPair_ok_blocks (E : Env) (certC keyC : Content) (c : TLSCert)
    (h : x509KeyPair E certC keyC = .ok c) : pemBlocksOf E certC ≠ [] := by
  intro hnil
  rw [x509KeyPair, hnil] at h
  simp at h

theorem readFile_err_load_err (E : Env) (fs : FS) (e : GoErr)
    (h : readFile E fs "device.crt" = .error e) :
    loadX509KeyPair E fs "device.crt" "device.key" = .error e := by
  rw [loadX509KeyPair, h]

theorem loadX509KeyPair_ok_read (E : Env) (fs : FS) (c : TLSCert)
    (h : loadX509KeyPair E fs "device.crt" "device.key" = .ok c) :
    ∃ r, readFile E fs "device.crt" = .ok r ∧ pemBlocksOf E r ≠ [] := by
  rw [loadX509KeyPair] at h
  cases hr : readFile E fs "device.crt" with
  | error e => rw [hr] at h; simp at h
  | ok certC =>
    rw [hr] at h
    cases hk : readFile E fs "device.key" with
    | error e => rw [hk] at h; simp at h
    | ok keyC =>
      rw [hk] at h
      exact ⟨certC, rfl, x509KeyPair_ok_blocks E certC keyC c h⟩

theorem pemDecode_none_load_err (E : Env) (fs : FS) (r : Content)
    (hr : readFile E fs "device.crt" = .ok r) (hd : pemDecode E r = none) :
    ∃ e, loadX509KeyPair E fs "device.crt" "device.key" = .error e := by
  have hnil : pemBlocksOf E r = [] := by
    rw [pemDecode, List.head?_eq_none_iff] at hd
    exact hd
  cases hk : readFile E fs "device.key" with
  | error e => exact ⟨e, by simp only [loadX509KeyPair, hr, hk]⟩
  | ok keyC =>
    refine ⟨.tlsNoCertPem, ?_⟩
    simp only [loadX509KeyPair, hr, hk, x509KeyPair, hnil, List.filter_nil]

/-- Claim C1: for every environment, time and file-system state,
`hasValidCertificate` evaluates to a boolean and never panics; it returns
`false` whenever the TLS key-pair load fails, the certificate file cannot be
read, its content PEM-decodes to no block, or the decoded bytes fail X.509
parsing; and after a successful key-pair load the `pem.Decode` result that the
code dereferences unchecked is never nil. -/
theorem C1_hasValidCertificate_total (E : Env) (now : Int) (fs : FS) :
    (∃ b, hasValidCertificate E now fs = some b)
    ∧ (∀ e, loadX509KeyPair E fs "device.crt" "device.key" = .error e →
        hasValidCertificate E now fs = some false)
    ∧ (∀ c, loadX509KeyPair E fs "device.crt" "device.key" = .ok c →
        ∃ r blk, readFile E fs "device.crt" = .ok r ∧ pemDecode E r = some blk)
    ∧ (∀ e, readFile E fs "device.crt" = .error e →
        hasValidCertificate E now fs = some false)
    ∧ (∀ r, readFile E fs "device.crt" = .ok r → pemDecode E r = none →
        hasValidCertificate E now fs = some false)
    ∧ (∀ r blk, readFile E fs "device.crt" = .ok r → pemDecode E r = some blk →
        E.parseCert blk.bytes = none → hasValidCertificate E now fs = some false) := by
  have hok : ∀ c, loadX509KeyPair E fs "device.crt" "device.key" = .ok c →
      ∃ r blk, readFile E fs "device.crt" = .ok r ∧ pemDecode E r = some blk := by
    intro c hc
    obtain ⟨r, hr, hne⟩ := loadX509KeyPair_ok_read E fs c hc
    cases hd : pemDecode E r with
    | none =>
      exfalso
      rw [pemDecode, List.head?_eq_none_iff] at hd
      exact hne hd
    | some blk => exact ⟨r, blk, hr, hd⟩
  have herr : ∀ e, loadX509KeyPair E fs "device.crt" "device.key" = .error e →
      hasValidCertificate E now fs = some false := by
    intro e he
    rw [hasValidCertificate, he]
  refine ⟨?_, herr, hok, ?_, ?_, ?_⟩
  · cases hl : loadX509KeyPair E fs "device.crt" "device.key" with
    | error e => exact ⟨false, herr e hl⟩
    | ok c =>
      obtain ⟨r, blk, hr, hd⟩ := hok c hl
      cases hp : E.parseCert blk.bytes with
      | none => exact ⟨false, by simp only [hasValidCertificate, hl, hr, hd, hp]⟩
      | some cert =>
        exact ⟨decide (now < cert.notAfter),
          by simp only [hasValidCertificate, hl, hr, hd, hp]⟩
  · intro e he
    exact herr e (readFile_err_load_err E fs e he)
  · intro r hr hd
    obtain ⟨e, he⟩ := pemDecode_none_load_err E fs r hr hd
    exact herr e he
  · intro r blk hr hd hp
    cases hl : loadX509KeyPair E fs "device.crt" "device.key" with
    | error e => exact herr e hl
    | ok c => simp only [hasValidCertificate, hl, hr, hd, hp]

/-- Witness for C1: on a concrete state with a valid stored pair the function
evaluates to a boolean, and on the empty directory the load error is turned
into `false`. -/
theorem C1_witness :
    (∃ b, hasValidCertificate testEnv 5 fsWithCert = some b)
    ∧ hasValidCertificate testEnv 5 [] = some false := by
  refine ⟨(C1_hasValidCertificate_total testEnv 5 fsWithCert).1, ?_⟩
  exact (C1_hasValidCertificate_total testEnv 5 []).2.1 .notFound (by rfl)

/-- Claim C5: when the key-pair load, the certificate read, the PEM decode and
the X.509 parse all succeed, `hasValidCertificate` returns `true` exactly when
the current time is strictly before the certificate's notAfter, and `false`
when notAfter is at or before the current time. -/
theorem C5_hasValidCertificate_expiry (E : Env) (now : Int) (fs : FS)
    (c : TLSCert) (r : Content) (blk : PemBlock) (cert : Certificate)
    (hload : loadX509KeyPair E fs "device.crt" "device.key" = .ok c)
    (hread : readFile E fs "device.crt" = .ok r)
    (hdec : pemDecode E r = some blk)
    (hparse : E.parseCert blk.bytes = some cert) :
    (hasValidCertificate E now fs = some true ↔ now < cert.notAfter)
    ∧ (cert.notAfter ≤ now → hasValidCertificate E now fs = some false) := by
  have hrun : hasValidCertificate E now fs = some (decide (now < cert.notAfter)) := by
    simp only [hasValidCertificate, hload, hread, hdec, hparse]
  constructor
  · rw [hrun]
    by_cases hlt : now < cert.notAfter
    · simp [hlt]
    · simp [hlt]
  · intro hle
    rw [hrun]
    simp [not_lt.mpr hle]

/-- Witness for C5: on a concrete valid pair with notAfter 10, the result is
`true` at time 5 (and the iff yields 5 < 10). -/
theorem C5_witness :
    hasValidCertificate testEnv 5 fsWithCert = some true := by
  have h := C5_hasValidCertificate_expiry testEnv 5 fsWithCert ⟨7⟩
    (.raw "PEM-CERT") ⟨"CERTIFICATE", .arbitrary 0⟩ ⟨10⟩
    (by rfl) (by rfl) (by rfl) (by rfl)
  exact h.1.mpr (by decide)

/-- Claim C7: `getTLSConfig` propagates the key-pair load error exactly when
the load fails, and on success returns the configuration holding the loaded
pair, the device's trusted roots, and peer verification disabled iff
`ignoreSSLErrors` is set. -/
theorem C7_getTLSConfig (E : Env) (d : Device) (fs : FS) :
    (∀ e, loadX509KeyPair E fs "device.crt" "device.key" = .error e →
      getTLSConfig E d fs = .error e)
    ∧ (∀ c, loadX509KeyPair E fs "device.crt" "device.key" = .ok c →
      getTLSConfig E d fs = .ok ⟨[c], d.rootCAs, d.ignoreSSLErrors⟩)
    ∧ (∀ cfg, getTLSConfig E d fs = .ok cfg →
      (cfg.insecureSkipVerify = true ↔ d.ignoreSSLErrors = true)
      ∧ cfg.rootCAs = d.rootCAs
      ∧ ∃ c, loadX509KeyPair E fs "device.crt" "device.key" = .ok c
          ∧ cfg.certificates = [c]) := by
  refine ⟨?_, ?_, ?_⟩
  · intro e he
    rw [getTLSConfig, he]
  · intro c hc
    rw [getTLSConfig, hc]
  · intro cfg hcfg
    cases hl : loadX509KeyPair E fs "device.crt" "device.key" with
    | error e =>
      rw [getTLSConfig, hl] at hcfg
      simp at hcfg
    | ok c =>
      rw [getTLSConfig, hl] at hcfg
      simp at hcfg
      rw [← hcfg]
      exact ⟨Iff.rfl, rfl, c, rfl, rfl⟩

/-- Witness for C7: on the empty directory the config build fails with the
load's not-found error; on a concrete valid pair it succeeds with the flag and
roots copied. -/
theorem C7_witness :
    getTLSConfig testEnv testDevice [] = .error .notFound
    ∧ getTLSConfig testEnv testDevice fsWithCert = .ok ⟨[⟨7⟩], 3, false⟩ := by
  constructor
  · exact (C7_getTLSConfig testEnv testDevice []).1 .notFound (by rfl)
  · exact (C7_getTLSConfig testEnv testDevice fsWithCert).2.1 ⟨7⟩ (by rfl)

theorem readFile_err_shape (E : Env) (fs : FS) (n : String) (e : GoErr)
    (h : readFile E fs n = .error e) : e = .ioErr ∨ e = .notFound := by
  rw [readFile] at h
  by_cases hf : E.readFileFails n
  · rw [if_pos hf] at h
    simp at h
    exact .inl h.symm
  · rw [if_neg hf] at h
    cases hl : FS.lookup fs n <;> rw [hl] at h <;> simp at h
    exact .inr h.symm

theorem readFile_ok_lookup (E : Env) (fs : FS) (n : String) (c : Content)
    (h : readFile E fs n = .ok c) :
    ∃ e, FS.lookup fs n = some e ∧ c = e.content := by
  rw [readFile] at h
  by_cases hf : E.readFileFails n
  · rw [if_pos hf] at h
    simp at h
  · rw [if_neg hf] at h
    cases hl : FS.lookup fs n with
    | none => rw [hl] at h; simp at h
    | some e =>
      rw [hl] at h
      simp at h
      exact ⟨e, rfl, h.symm⟩

theorem hasValidCertificate_empty (E : Env) (now : Int) :
    hasValidCertificate E now [] = some false := by
  have hre : ∃ e, readFile E [] "device.crt" = .error e := by
    by_cases hf : E.readFileFails "device.crt"
    · exact ⟨.ioErr, by simp [readFile, hf]⟩
    · exact ⟨.notFound, by simp [readFile, hf, FS.lookup]⟩
  obtain ⟨e, he⟩ := hre
  simp only [hasValidCertificate, readFile_err_load_err E [] e he]

theorem foldl_erase_keys_nil (fs : FS) :
    (fs.map Prod.fst).foldl FS.erase fs = [] := by
  refine FS.eq_nil_of_lookup_none _ (fun m => ?_)
  by_cases hm : m ∈ fs.map Prod.fst
  · exact FS.lookup_foldl_erase_mem _ _ _ hm
  · rw [FS.lookup_foldl_erase_notMem _ _ _ hm]
    exact FS.lookup_eq_none_of_notMem fs m hm

/-- Claim C3: `ensureKeyPair` is a successful no-op that changes no file
whenever the private-key file exists; consequently, starting from the empty
directory, a second call after a successful first call returns success with
the whole state (in particular the private-key file content) unchanged. -/
theorem C3_ensureKeyPair_noop_idempotent (E : Env) (fs : FS) :
    ((FS.lookup fs "device.key").isSome = true →
      ensureKeyPair E fs = (.ok (), fs))
    ∧ (∀ fs1, ensureKeyPair E [] = (.ok (), fs1) →
        ensureKeyPair E fs1 = (.ok (), fs1)) := by
  refine ⟨fun h => ensureKeyPair_noop E fs h, fun fs1 h => ?_⟩
  exact ensureKeyPair_noop E fs1 (ensureKeyPair_ok_key_present E [] fs1 h)

/-- Witness for C3: a concrete state with a key file is left untouched, and a
second call on the state produced by a successful first call from the empty
directory is the identity. -/
theorem C3_witness :
    ensureKeyPair testEnv [("device.key", ⟨.pemFile [], 384⟩)]
      = (.ok (), [("device.key", ⟨.pemFile [], 384⟩)])
    ∧ ensureKeyPair testEnv (ensureKeyPair testEnv []).2
      = (.ok (), (ensureKeyPair testEnv []).2) := by
  constructor
  · exact (C3_ensureKeyPair_noop_idempotent testEnv
      [("device.key", ⟨.pemFile [], 384⟩)]).1 (by rfl)
  · exact (C3_ensureKeyPair_noop_idempotent testEnv []).2
      (ensureKeyPair testEnv []).2 (by rfl)

/-- Claim C4: when the private-key file is absent, a successful
`ensureKeyPair` first clears the whole directory and generates a fresh
2048-bit key, so that afterwards the directory holds exactly the new
public-key file and private-key file. -/
theorem C4_ensureKeyPair_regenerate (E : Env) (fs fs' : FS)
    (hk : FS.lookup fs "device.key" = none)
    (h : ensureKeyPair E fs = (.ok (), fs')) :
    (clearCrypto E fs).1 = .ok ()
    ∧ ∃ k, E.generateKey 2048 = some k ∧
        fs' = [("device.pub", ⟨.pemFile [⟨"PUBLIC KEY", .pkix k⟩], 438⟩),
               ("device.key", ⟨.pemFile [⟨"RSA PRIVATE KEY", .pkcs1 k⟩], 438⟩)] := by
  have hns : ¬(FS.lookup fs "device.key").isSome = true := by
    rw [hk]
    simp
  have hclear : (clearCrypto E fs).1 = .ok () := by
    rcases hc : clearCrypto E fs with ⟨r1, fs1⟩
    cases r1 with
    | ok u =>
      cases u
      rfl
    | error e1 =>
      rw [ensureKeyPair, if_neg hns, hc] at h
      simp at h
  rcases ensureKeyPair_ok_cases E fs fs' h with ⟨h1, _⟩ | ⟨_, k, hg, h2⟩
  · rw [hk] at h1
    simp at h1
  · exact ⟨hclear, k, hg, by simp [h2, freshPairFS]⟩

/-- Witness for C4: concrete regeneration run over a directory holding only a
stale certificate. -/
theorem C4_witness :
    (clearCrypto testEnv [("device.crt", ⟨.raw "old", 384⟩)]).1 = .ok ()
    ∧ (ensureKeyPair testEnv [("device.crt", ⟨.raw "old", 384⟩)]).2
        = [("device.pub", ⟨.pemFile [⟨"PUBLIC KEY", .pkix ⟨1, 2048⟩⟩], 438⟩),
           ("device.key", ⟨.pemFile [⟨"RSA PRIVATE KEY", .pkcs1 ⟨1, 2048⟩⟩], 438⟩)] := by
  obtain ⟨hclear, k, hg, hfs⟩ := C4_ensureKeyPair_regenerate testEnv
    [("device.crt", ⟨.raw "old", 384⟩)]
    (ensureKeyPair testEnv [("device.crt", ⟨.raw "old", 384⟩)]).2 (by rfl) (by rfl)
  have hkk : (⟨1, 2048⟩ : RSAKey) = k := Option.some.inj (by rw [← hg]; rfl)
  exact ⟨hclear, by rw [hfs, ← hkk]⟩

/-- Claim C8: a successful `ClearCrypto` on a directory holding key, CSR and
certificate files leaves it empty and a subsequent `hasValidCertificate`
returns false; it succeeds exactly when the directory can be opened and
listed and every single removal succeeds; and on a removal failure the files
removed before the failing one stay deleted while the error is surfaced. -/
theorem C8_clearCrypto_spec (E : Env) (fs : FS) (now : Int)
    (hk : (FS.lookup fs "device.key").isSome = true)
    (hc : (FS.lookup fs "device.csr").isSome = true)
    (hcrt : (FS.lookup fs "device.crt").isSome = true) :
    ((clearCrypto E fs).1 = .ok () →
      (clearCrypto E fs).2 = []
      ∧ hasValidCertificate E now (clearCrypto E fs).2 = some false)
    ∧ ((clearCrypto E fs).1 = .ok () ↔
        (E.openDirFails = false ∧ E.readdirFails = false ∧
          ∀ n ∈ fs.map Prod.fst, E.removeFails n = false))
    ∧ (∀ pre n post, fs.map Prod.fst = pre ++ n :: post →
        E.openDirFails = false → E.readdirFails = false →
        (∀ m ∈ pre, E.removeFails m = false) → E.removeFails n = true →
        clearCrypto E fs = (.error .ioErr, pre.foldl FS.erase fs)
        ∧ ∀ m ∈ pre, FS.lookup (pre.foldl FS.erase fs) m = none) := by
  refine ⟨?_, clearCrypto_ok_iff E fs, ?_⟩
  · intro h
    have hnil := clearCrypto_ok_nil E fs h
    rw [hnil]
    exact ⟨rfl, hasValidCertificate_empty E now⟩
  · intro pre n post hkeys ho hr hpre hn
    constructor
    · have hrw : clearCrypto E fs = removeFiles E fs (fs.map Prod.fst) := by
        simp [clearCrypto, ho, hr]
      rw [hrw, hkeys]
      exact removeFiles_err E pre n post fs hpre hn
    · intro m hm
      exact FS.lookup_foldl_erase_mem pre fs m hm

/-- Witness for C8: clearing a concrete directory holding key, CSR and
certificate leaves it empty and invalid. -/
theorem C8_witness :
    (clearCrypto testEnv fsFull).2 = []
    ∧ hasValidCertificate testEnv 5 (clearCrypto testEnv fsFull).2 = some false :=
  (C8_clearCrypto_spec testEnv fsFull 5 (by rfl) (by rfl) (by rfl)).1 (by rfl)

/-- Claim C2 (amended): `saveCertificateFromString` fails with the PEM-decode
error, leaving every file unchanged, exactly when the input holds no PEM
block; when a block is found (X.509 validity not required) and the write
succeeds, it stores the raw input text verbatim in the certificate file,
creating the file with owner read/write-only permission 0600 when absent,
while an existing certificate file keeps its previous permissions. -/
theorem C2_saveCertificate (E : Env) (s : String) (fs : FS) :
    (pemDecode E (.raw s) = none →
      saveCertificateFromString E s fs = (.error .pemDecodeFailed, fs))
    ∧ (∀ fs', saveCertificateFromString E s fs = (.error .pemDecodeFailed, fs') →
        pemDecode E (.raw s) = none ∧ fs' = fs)
    ∧ (∀ blk, pemDecode E (.raw s) = some blk →
        E.writeFileFails "device.crt" = false →
        (FS.lookup fs "device.crt" = none →
          saveCertificateFromString E s fs
            = (.ok (), FS.insert fs "device.crt" ⟨.raw s, 384⟩))
        ∧ (∀ e, FS.lookup fs "device.crt" = some e →
            saveCertificateFromString E s fs
              = (.ok (), FS.insert fs "device.crt" ⟨.raw s, e.mode⟩))) := by
  refine ⟨?_, ?_, ?_⟩
  · intro hd
    simp only [saveCertificateFromString, hd]
  · intro fs' h
    cases hd : pemDecode E (.raw s) with
    | none =>
      rw [saveCertificateFromString, hd] at h
      simp at h
      exact ⟨rfl, h.symm⟩
    | some blk =>
      exfalso
      rw [saveCertificateFromString, hd, writeFile] at h
      by_cases hw : E.writeFileFails "device.crt"
      · rw [if_pos hw] at h
        simp at h
      · rw [if_neg hw] at h
        cases hl : FS.lookup fs "device.crt" <;> rw [hl] at h <;> simp at h
  · intro blk hd hw
    constructor
    · intro hl
      simp only [saveCertificateFromString, hd, writeFile, hw, Bool.false_eq_true,
        if_false, hl]
    · intro e hl
      simp only [saveCertificateFromString, hd, writeFile, hw, Bool.false_eq_true,
        if_false, hl]

/-- Counterexample to C2 as stated: overwriting a pre-existing certificate
file whose permission mode is 0644 succeeds and stores the text verbatim, but
the file keeps mode 0644 (`ioutil.WriteFile` applies the 0600 permission only
when creating the file), so the stored certificate does not end up with owner
read/write-only permissions. -/
theorem C2_counterexample :
    (saveCertificateFromString testEnv "PEM-CERT"
        [("device.crt", ⟨.raw "old", 420⟩)]).1 = .ok ()
    ∧ FS.lookup (saveCertificateFromString testEnv "PEM-CERT"
        [("device.crt", ⟨.raw "old", 420⟩)]).2 "device.crt"
        = some ⟨.raw "PEM-CERT", 420⟩
    ∧ (420 : Nat) ≠ 384 :=
  ⟨rfl, rfl, by decide⟩

/-- Witness for C2 (amended): a non-PEM input fails and leaves the old
certificate untouched; a PEM input on an empty directory is stored verbatim
with mode 0600. -/
theorem C2_witness :
    saveCertificateFromString testEnv "not a cert" [("device.crt", ⟨.raw "old", 384⟩)]
      = (.error .pemDecodeFailed, [("device.crt", ⟨.raw "old", 384⟩)])
    ∧ saveCertificateFromString testEnv "PEM-CERT" []
      = (.ok (), [("device.crt", ⟨.raw "PEM-CERT", 384⟩)]) := by
  constructor
  · exact (C2_saveCertificate testEnv "not a cert"
      [("device.crt", ⟨.raw "old", 384⟩)]).1 (by rfl)
  · exact ((C2_saveCertificate testEnv "PEM-CERT" []).2.2
      ⟨"CERTIFICATE", .arbitrary 0⟩ (by rfl) (by rfl)).1 (by rfl)

theorem string_pub_ne_csr : ("device.pub" : String) ≠ "device.csr" := by decide

theorem string_key_ne_csr : ("device.key" : String) ≠ "device.csr" := by decide

theorem freshPairFS_lookup_key (k : RSAKey) :
    FS.lookup (freshPairFS k) "device.key"
      = some ⟨.pemFile [⟨"RSA PRIVATE KEY", .pkcs1 k⟩], 438⟩ := by
  simp [freshPairFS, FS.lookup, string_pub_ne_key]

theorem freshPairFS_lookup_csr (k : RSAKey) :
    FS.lookup (freshPairFS k) "device.csr" = none := by
  simp [freshPairFS, FS.lookup, string_pub_ne_csr, string_key_ne_csr]

theorem createFile_error (E : Env) (fs : FS) (n : String) (e : GoErr) (fs2 : FS)
    (h : createFile E fs n = (.error e, fs2)) : fs2 = fs ∧ e = .ioErr := by
  rw [createFile] at h
  by_cases hc : E.createFails n
  · rw [if_pos hc] at h
    simp at h
    exact ⟨h.2.symm, h.1.symm⟩
  · rw [if_neg hc] at h
    cases hl : FS.lookup fs n <;> simp only [hl] at h <;> simp at h

theorem pemEncodeTo_error (E : Env) (fs : FS) (n : String) (blk : PemBlock)
    (e : GoErr) (fs2 : FS)
    (h : pemEncodeTo E fs n blk = (.error e, fs2)) : fs2 = fs ∧ e = .ioErr := by
  rw [pemEncodeTo] at h
  by_cases hc : E.encodeFails n
  · rw [if_pos hc] at h
    simp at h
    exact ⟨h.2.symm, h.1.symm⟩
  · rw [if_neg hc] at h
    cases hl : FS.lookup fs n <;> simp only [hl] at h <;> simp at h

/-- Claim C10: when `ensureCSR` fails because the private-key file PEM-decodes
to no block, because the key bytes parse as neither PKCS#1 nor PKCS#8, or
because the parsed key is not RSA, it returns the error with every file in the
directory unchanged — no crypto material is cleared or deleted, despite the
wording of the error messages. -/
theorem C10_ensureCSR_corrupt_unchanged (E : Env) (d : Device) (fs fs' : FS)
    (e : GoErr)
    (h : ensureCSR E d fs = (.error e, fs'))
    (he : e = .corruptedKey ∨ e = .parseKeyFailed ∨ e = .notRSA) :
    fs' = fs := by
  have hne1 : e ≠ .ioErr := by rcases he with h' | h' | h' <;> rw [h'] <;> simp
  have hne2 : e ≠ .signFailed := by rcases he with h' | h' | h' <;> rw [h'] <;> simp
  rcases hkp : ensureKeyPair E fs with ⟨r1, fs1⟩
  cases r1 with
  | error e1 =>
    simp only [ensureCSR, hkp] at h
    simp at h
    exfalso
    rcases ensureKeyPair_err_shape E fs fs1 e1 hkp with hx | hx | hx <;>
      rcases he with h' | h' | h' <;> rw [h.1, h'] at hx <;> simp at hx
  | ok u1 =>
    cases u1
    simp only [ensureCSR, hkp] at h
    rcases ensureKeyPair_ok_cases E fs fs1 hkp with ⟨hkey, hfs1⟩ | ⟨hkey, k, hg, hfs1⟩
    · subst hfs1
      by_cases hcsr : (FS.lookup fs1 "device.csr").isSome = true
      · rw [if_pos hcsr] at h
        simp at h
      · rw [if_neg hcsr] at h
        cases hread : readFile E fs1 "device.key" with
        | error e2 =>
          simp only [hread] at h
          simp at h
          exact h.2.symm
        | ok priv =>
          simp only [hread] at h
          cases hdec : pemDecode E priv with
          | none =>
            simp only [hdec] at h
            simp at h
            exact h.2.symm
          | some privPem =>
            simp only [hdec] at h
            cases hcas : parseKeyCascade E privPem.bytes with
            | error e3 =>
              simp only [hcas] at h
              simp at h
              exact h.2.symm
            | ok pk =>
              simp only [hcas] at h
              cases pk with
              | nonRSA nn =>
                simp at h
                exact h.2.symm
              | rsa k0 =>
                cases hreq : createCertificateRequest E
                    ⟨d.realm ++ "/" ++ d.deviceID, ["Devices"], .sha256WithRSA⟩ k0 with
                | error e4 =>
                  simp only [hreq] at h
                  simp at h
                  exact h.2.symm
                | ok csrB =>
                  simp only [hreq] at h
                  rcases hcf : createFile E fs1 "device.csr" with ⟨rc, fs2⟩
                  cases rc with
                  | error e5 =>
                    simp only [hcf] at h
                    simp at h
                    obtain ⟨hfs2, _⟩ := createFile_error E fs1 "device.csr" e5 fs2 hcf
                    rw [← h.2, hfs2]
                  | ok u5 =>
                    cases u5
                    simp only [hcf] at h
                    rcases hpe : pemEncodeTo E fs2 "device.csr"
                        ⟨"CERTIFICATE REQUEST", csrB⟩ with ⟨rp, fs3⟩
                    cases rp with
                    | error e6 =>
                      rw [hpe] at h
                      simp at h
                      obtain ⟨_, he6⟩ := pemEncodeTo_error E fs2 "device.csr"
                        ⟨"CERTIFICATE REQUEST", csrB⟩ e6 fs3 hpe
                      exfalso
                      exact hne1 (by rw [← h.1, he6])
                    | ok u6 =>
                      rw [hpe] at h
                      simp at h
    · subst hfs1
      exfalso
      by_cases hcsr : (FS.lookup (freshPairFS k) "device.csr").isSome = true
      · rw [freshPairFS_lookup_csr k] at hcsr
        simp at hcsr
      · rw [if_neg hcsr] at h
        cases hread : readFile E (freshPairFS k) "device.key" with
        | error e2 =>
          simp only [hread] at h
          simp at h
          rcases readFile_err_shape E (freshPairFS k) "device.key" e2 hread with hx | hx
          · exact hne1 (by rw [← h.1, hx])
          · rw [hx] at hread
            rw [readFile] at hread
            by_cases hrf : E.readFileFails "device.key"
            · rw [if_pos hrf] at hread
              simp at hread
            · rw [if_neg hrf, freshPairFS_lookup_key k] at hread
              simp at hread
        | ok priv =>
          simp only [hread] at h
          obtain ⟨en, hlk, hpriv⟩ := readFile_ok_lookup E (freshPairFS k) "device.key" priv hread
          rw [freshPairFS_lookup_key k] at hlk
          have hpriv2 : priv = .pemFile [⟨"RSA PRIVATE KEY", .pkcs1 k⟩] := by
            rw [hpriv, ← Option.some.inj hlk]
          subst hpriv2
          have hdec : pemDecode E (.pemFile [⟨"RSA PRIVATE KEY", .pkcs1 k⟩])
              = some ⟨"RSA PRIVATE KEY", .pkcs1 k⟩ := rfl
          simp only [hdec] at h
          have hcas : parseKeyCascade E (Bytes.pkcs1 k) = .ok (.rsa k) := rfl
          simp only [hcas] at h
          cases hreq : createCertificateRequest E
              ⟨d.realm ++ "/" ++ d.deviceID, ["Devices"], .sha256WithRSA⟩ k with
          | error e4 =>
            simp only [hreq] at h
            simp at h
            rw [createCertificateRequest] at hreq
            by_cases hs : E.csrSignFails
            · rw [if_pos hs] at hreq
              simp at hreq
              exact hne2 (by rw [← h.1, ← hreq])
            · rw [if_neg hs] at hreq
              simp at hreq
          | ok csrB =>
            simp only [hreq] at h
            rcases hcf : createFile E (freshPairFS k) "device.csr" with ⟨rc, fs2⟩
            cases rc with
            | error e5 =>
              simp only [hcf] at h
              simp at h
              obtain ⟨_, he5⟩ := createFile_error E (freshPairFS k) "device.csr" e5 fs2 hcf
              exact hne1 (by rw [← h.1, he5])
            | ok u5 =>
              cases u5
              simp only [hcf] at h
              rcases hpe : pemEncodeTo E fs2 "device.csr"
                  ⟨"CERTIFICATE REQUEST", csrB⟩ with ⟨rp, fs3⟩
              cases rp with
              | error e6 =>
                rw [hpe] at h
                simp at h
                obtain ⟨_, he6⟩ := pemEncodeTo_error E fs2 "device.csr"
                  ⟨"CERTIFICATE REQUEST", csrB⟩ e6 fs3 hpe
                exact hne1 (by rw [← h.1, he6])
              | ok u6 =>
                rw [hpe] at h
                simp at h

/-- Witness for C10: a directory whose key file holds no PEM block makes
`ensureCSR` fail with the corruption error and leaves the state unchanged. -/
theorem C10_witness :
    ensureCSR testEnv testDevice [("device.key", ⟨.raw "garbage", 438⟩)]
      = (.error .corruptedKey, [("device.key", ⟨.raw "garbage", 438⟩)])
    ∧ (ensureCSR testEnv testDevice [("device.key", ⟨.raw "garbage", 438⟩)]).2
      = [("device.key", ⟨.raw "garbage", 438⟩)] := by
  have h : ensureCSR testEnv testDevice [("device.key", ⟨.raw "garbage", 438⟩)]
      = (.error .corruptedKey,
          (ensureCSR testEnv testDevice [("device.key", ⟨.raw "garbage", 438⟩)]).2) := by
    rfl
  refine ⟨?_, ?_⟩
  · rw [h]
    rw [C10_ensureCSR_corrupt_unchanged testEnv testDevice
      [("device.key", ⟨.raw "garbage", 438⟩)]
      (ensureCSR testEnv testDevice [("device.key", ⟨.raw "garbage", 438⟩)]).2
      .corruptedKey h (Or.inl rfl)]
  · exact C10_ensureCSR_corrupt_unchanged testEnv testDevice
      [("device.key", ⟨.raw "garbage", 438⟩)]
      (ensureCSR testEnv testDevice [("device.key", ⟨.raw "garbage", 438⟩)]).2
      .corruptedKey h (Or.inl rfl)

/-- Claim C6 (amended): a successful `ensureCSR` on a state with no CSR file
first ensures the keypair exists and then writes a CSR file whose PEM block
type is CERTIFICATE REQUEST and whose request carries signature algorithm
SHA-256 with RSA, common name `realm/deviceID` and organization Devices; it is
a no-op when a CSR file and the private-key file both already exist. -/
theorem C6_ensureCSR_spec (E : Env) (d : Device) (fs fs' : FS) :
    ((FS.lookup fs "device.csr").isSome = true →
      (FS.lookup fs "device.key").isSome = true →
      ensureCSR E d fs = (.ok (), fs))
    ∧ (FS.lookup fs "device.csr" = none →
        ensureCSR E d fs = (.ok (), fs') →
        (FS.lookup fs' "device.key").isSome = true
        ∧ ∃ k, FS.lookup fs' "device.csr"
            = some ⟨.pemFile [⟨"CERTIFICATE REQUEST",
                .csrDER ⟨d.realm ++ "/" ++ d.deviceID, ["Devices"], .sha256WithRSA⟩ k⟩],
                438⟩) := by
  constructor
  · intro hcsr hkey
    simp [ensureCSR, ensureKeyPair_noop E fs hkey, hcsr]
  · intro hcsr0 h
    rcases hkp : ensureKeyPair E fs with ⟨r1, fs1⟩
    cases r1 with
    | error e1 =>
      simp only [ensureCSR, hkp] at h
      simp at h
    | ok u1 =>
      cases u1
      simp only [ensureCSR, hkp] at h
      have hcsr1 : FS.lookup fs1 "device.csr" = none := by
        rcases ensureKeyPair_ok_cases E fs fs1 hkp with ⟨_, hfs1⟩ | ⟨_, k, _, hfs1⟩
        · rw [hfs1]
          exact hcsr0
        · rw [hfs1]
          exact freshPairFS_lookup_csr k
      rw [if_neg (by simp [hcsr1])] at h
      have hkey1 : (FS.lookup fs1 "device.key").isSome = true :=
        ensureKeyPair_ok_key_present E fs fs1 hkp
      cases hread : readFile E fs1 "device.key" with
      | error e2 =>
        simp only [hread] at h
        simp at h
      | ok priv =>
        simp only [hread] at h
        cases hdec : pemDecode E priv with
        | none =>
          simp only [hdec] at h
          simp at h
        | some privPem =>
          simp only [hdec] at h
          cases hcas : parseKeyCascade E privPem.bytes with
          | error e3 =>
            simp only [hcas] at h
            simp at h
          | ok pk =>
            simp only [hcas] at h
            cases pk with
            | nonRSA nn => simp at h
            | rsa k0 =>
              cases hreq : createCertificateRequest E
                  ⟨d.realm ++ "/" ++ d.deviceID, ["Devices"], .sha256WithRSA⟩ k0 with
              | error e4 =>
                simp only [hreq] at h
                simp at h
              | ok csrB =>
                simp only [hreq] at h
                have hcsrB : csrB = .csrDER
                    ⟨d.realm ++ "/" ++ d.deviceID, ["Devices"], .sha256WithRSA⟩ k0 := by
                  rw [createCertificateRequest] at hreq
                  by_cases hs : E.csrSignFails
                  · rw [if_pos hs] at hreq
                    simp at hreq
                  · rw [if_neg hs] at hreq
                    simp at hreq
                    exact hreq.symm
                rcases hcf : createFile E fs1 "device.csr" with ⟨rc, fs2⟩
                cases rc with
                | error e5 =>
                  simp only [hcf] at h
                  simp at h
                | ok u5 =>
                  cases u5
                  simp only [hcf] at h
                  have hfs2 : fs2 = FS.insert fs1 "device.csr" ⟨.pemFile [], 438⟩ := by
                    rw [createFile] at hcf
                    by_cases hc5 : E.createFails "device.csr"
                    · rw [if_pos hc5] at hcf
                      simp at hcf
                    · rw [if_neg hc5] at hcf
                      simp only [hcsr1] at hcf
                      simp at hcf
                      exact hcf.symm
                  rcases hpe : pemEncodeTo E fs2 "device.csr"
                      ⟨"CERTIFICATE REQUEST", csrB⟩ with ⟨rp, fs3⟩
                  cases rp with
                  | error e6 =>
                    rw [hpe] at h
                    simp at h
                  | ok u6 =>
                    cases u6
                    rw [hpe] at h
                    simp at h
                    have hlk2 : FS.lookup fs2 "device.csr" = some ⟨.pemFile [], 438⟩ := by
                      rw [hfs2]
                      exact FS.lookup_insert_self fs1 "device.csr" _
                    have hfs3 : fs3 = FS.insert fs2 "device.csr"
                        ⟨.pemFile [⟨"CERTIFICATE REQUEST", csrB⟩], 438⟩ := by
                      rw [pemEncodeTo] at hpe
                      by_cases he6 : E.encodeFails "device.csr"
                      · rw [if_pos he6] at hpe
                        simp at hpe
                      · rw [if_neg he6] at hpe
                        simp only [hlk2] at hpe
                        simp at hpe
                        exact hpe.symm
                    refine ⟨?_, k0, ?_⟩
                    · rw [← h, hfs3, hfs2]
                      rw [FS.lookup_insert_ne _ _ string_key_ne_csr,
                        FS.lookup_insert_ne _ _ string_key_ne_csr]
                      exact hkey1
                    · rw [← h, hfs3, hcsrB]
                      exact FS.lookup_insert_self fs2 "device.csr" _

/-- Counterexample to C6 as stated: on a state holding a CSR file but no
private-key file, `ensureCSR` succeeds yet is not a no-op — the transitive
`ensureKeyPair` clears the directory (deleting the CSR), regenerates the
keypair and writes a new CSR, so the state changes. -/
theorem C6_counterexample :
    (ensureCSR testEnv testDevice [("device.csr", ⟨.raw "stale", 438⟩)]).1 = .ok ()
    ∧ (ensureCSR testEnv testDevice [("device.csr", ⟨.raw "stale", 438⟩)]).2
        ≠ [("device.csr", ⟨.raw "stale", 438⟩)] := by
  constructor
  · rfl
  · decide

/-- Witness for C6 (amended): a no-op on a state holding both key and CSR, and
a concrete successful run from the empty directory producing the CSR with the
specified subject. -/
theorem C6_witness :
    ensureCSR testEnv testDevice fsFull = (.ok (), fsFull)
    ∧ ((FS.lookup (ensureCSR testEnv testDevice []).2 "device.key").isSome = true
        ∧ ∃ k, FS.lookup (ensureCSR testEnv testDevice []).2 "device.csr"
            = some ⟨.pemFile [⟨"CERTIFICATE REQUEST",
                .csrDER ⟨testDevice.realm ++ "/" ++ testDevice.deviceID,
                  ["Devices"], .sha256WithRSA⟩ k⟩], 438⟩) := by
  constructor
  · exact (C6_ensureCSR_spec testEnv testDevice fsFull fsFull).1 (by rfl) (by rfl)
  · exact (C6_ensureCSR_spec testEnv testDevice []
      (ensureCSR testEnv testDevice []).2).2 (by rfl) (by rfl)

theorem string_key_ne_crt : ("device.key" : String) ≠ "device.crt" := by decide

theorem string_pub_ne_crt : ("device.pub" : String) ≠ "device.crt" := by decide

theorem keyImpliesPub_insert (fs : FS) (n : String) (e : FileEntry)
    (hk : ("device.key" : String) ≠ n) (hp : ("device.pub" : String) ≠ n)
    (hinv : KeyImpliesPub fs) : KeyImpliesPub (FS.insert fs n e) := by
  intro h
  rw [FS.lookup_insert_ne fs e hk] at h
  rw [FS.lookup_insert_ne fs e hp]
  exact hinv h

theorem keyImpliesPub_nil : KeyImpliesPub [] := by
  intro h
  simp [FS.lookup] at h

theorem createFile_snd_cases (E : Env) (fs : FS) (n : String) :
    (createFile E fs n).2 = fs ∨ ∃ x, (createFile E fs n).2 = FS.insert fs n x := by
  rw [createFile]
  by_cases hc : E.createFails n
  · rw [if_pos hc]
    exact .inl rfl
  · rw [if_neg hc]
    cases hl : FS.lookup fs n
    · exact .inr ⟨_, rfl⟩
    · exact .inr ⟨_, rfl⟩

theorem pemEncodeTo_snd_cases (E : Env) (fs : FS) (n : String) (blk : PemBlock) :
    (pemEncodeTo E fs n blk).2 = fs
      ∨ ∃ x, (pemEncodeTo E fs n blk).2 = FS.insert fs n x := by
  rw [pemEncodeTo]
  by_cases hc : E.encodeFails n
  · rw [if_pos hc]
    exact .inl rfl
  · rw [if_neg hc]
    cases hl : FS.lookup fs n
    · exact .inr ⟨_, rfl⟩
    · exact .inr ⟨_, rfl⟩

theorem clearCrypto_preserves_inv (E : Env) (fs : FS)
    (hnr : ∀ n, E.removeFails n = false) (hinv : KeyImpliesPub fs) :
    KeyImpliesPub (clearCrypto E fs).2 := by
  by_cases ho : E.openDirFails
  · simp only [clearCrypto, ho, if_true]
    exact hinv
  · by_cases hr : E.readdirFails
    · simp only [clearCrypto, ho, Bool.false_eq_true, if_false, hr, if_true]
      exact hinv
    · have hok := removeFiles_ok_of E (fs.map Prod.fst) fs (fun n _ => hnr n)
      simp only [clearCrypto, ho, hr, Bool.false_eq_true, if_false, hok,
        foldl_erase_keys_nil]
      exact keyImpliesPub_nil

theorem ensureKeyPair_preserves_inv (E : Env) (fs : FS)
    (hnr : ∀ n, E.removeFails n = false) (hinv : KeyImpliesPub fs) :
    KeyImpliesPub (ensureKeyPair E fs).2 := by
  by_cases hk : (FS.lookup fs "device.key").isSome = true
  · rw [ensureKeyPair_noop E fs hk]
    exact hinv
  · rw [ensureKeyPair, if_neg hk]
    by_cases ho : E.openDirFails
    · simp only [clearCrypto, ho, if_true]
      exact hinv
    · by_cases hr : E.readdirFails
      · simp only [clearCrypto, ho, Bool.false_eq_true, if_false, hr, if_true]
        exact hinv
      · have hok := removeFiles_ok_of E (fs.map Prod.fst) fs (fun n _ => hnr n)
        have hclear : clearCrypto E fs = (.ok (), []) := by
          simp only [clearCrypto, ho, hr, Bool.false_eq_true, if_false, hok,
            foldl_erase_keys_nil]
        rw [hclear]
        cases hg : E.generateKey 2048 with
        | none => exact keyImpliesPub_nil
        | some k =>
          simp only [hg]
          by_cases hm : E.marshalPKIXFails
          · simp only [savePublicPEMKey, marshalPKIXPublicKey, hm, if_true]
            exact keyImpliesPub_nil
          · by_cases hcr1 : E.createFails "device.pub"
            · simp [savePublicPEMKey, marshalPKIXPublicKey, hm, createFile, hcr1]
              exact keyImpliesPub_nil
            · by_cases hen1 : E.encodeFails "device.pub"
              · simp [savePublicPEMKey, marshalPKIXPublicKey, hm, createFile, hcr1,
                  pemEncodeTo, hen1, FS.lookup, FS.insert]
                intro hsome
                simp [FS.lookup, string_pub_ne_key] at hsome
              · by_cases hcr2 : E.createFails "device.key"
                · simp [savePublicPEMKey, marshalPKIXPublicKey, hm, createFile, hcr1,
                    pemEncodeTo, hen1, savePEMKey, hcr2, FS.lookup, FS.insert]
                  intro hsome
                  simp [FS.lookup, string_pub_ne_key] at hsome
                · by_cases hen2 : E.encodeFails "device.key"
                  · simp [savePublicPEMKey, marshalPKIXPublicKey, hm, createFile, hcr1,
                      pemEncodeTo, hen1, savePEMKey, hcr2, hen2, FS.lookup, FS.insert,
                      string_pub_ne_key, string_key_ne_pub]
                    intro hsome
                    simp [FS.lookup]
                  · simp [savePublicPEMKey, marshalPKIXPublicKey, hm, createFile, hcr1,
                      pemEncodeTo, hen1, savePEMKey, hcr2, hen2, FS.lookup, FS.insert,
                      string_pub_ne_key, string_key_ne_pub]
                    intro hsome
                    simp [FS.lookup]

theorem ensureCSR_preserves_inv (E : Env) (d : Device) (fs : FS)
    (hnr : ∀ n, E.removeFails n = false) (hinv : KeyImpliesPub fs) :
    KeyImpliesPub (ensureCSR E d fs).2 := by
  have hinv1 : KeyImpliesPub (ensureKeyPair E fs).2 :=
    ensureKeyPair_preserves_inv E fs hnr hinv
  rcases hkp : ensureKeyPair E fs with ⟨r1, fs1⟩
  rw [hkp] at hinv1
  cases r1 with
  | error e1 =>
    simp only [ensureCSR, hkp]
    exact hinv1
  | ok u1 =>
    cases u1
    simp only [ensureCSR, hkp]
    by_cases hcsr : (FS.lookup fs1 "device.csr").isSome = true
    · rw [if_pos hcsr]
      exact hinv1
    · rw [if_neg hcsr]
      cases hread : readFile E fs1 "device.key" with
      | error e2 => exact hinv1
      | ok priv =>
        simp only [hread]
        cases hdec : pemDecode E priv with
        | none => exact hinv1
        | some privPem =>
          simp only [hdec]
          cases hcas : parseKeyCascade E privPem.bytes with
          | error e3 => exact hinv1
          | ok pk =>
            simp only [hcas]
            cases pk with
            | nonRSA nn => exact hinv1
            | rsa k0 =>
              cases hreq : createCertificateRequest E
                  ⟨d.realm ++ "/" ++ d.deviceID, ["Devices"], .sha256WithRSA⟩ k0 with
              | error e4 =>
                simp only [hreq]
                exact hinv1
              | ok csrB =>
                simp only [hreq]
                rcases hcf : createFile E fs1 "device.csr" with ⟨rc, fs2⟩
                have h2 := createFile_snd_cases E fs1 "device.csr"
                rw [hcf] at h2
                have hinv2 : KeyImpliesPub fs2 := by
                  rcases h2 with h2 | ⟨x, h2⟩
                  · rw [show fs2 = fs1 from h2]
                    exact hinv1
                  · rw [show fs2 = FS.insert fs1 "device.csr" x from h2]
                    exact keyImpliesPub_insert fs1 "device.csr" x
                      string_key_ne_csr string_pub_ne_csr hinv1
                cases rc with
                | error e5 => exact hinv2
                | ok u5 =>
                  cases u5
                  show KeyImpliesPub
                    (pemEncodeTo E fs2 "device.csr" ⟨"CERTIFICATE REQUEST", csrB⟩).2
                  have h3 := pemEncodeTo_snd_cases E fs2 "device.csr"
                    ⟨"CERTIFICATE REQUEST", csrB⟩
                  rcases h3 with h3 | ⟨x, h3⟩
                  · rw [h3]
                    exact hinv2
                  · rw [h3]
                    exact keyImpliesPub_insert fs2 "device.csr" x
                      string_key_ne_csr string_pub_ne_csr hinv2

theorem saveCert_preserves_inv (E : Env) (s : String) (fs : FS)
    (hinv : KeyImpliesPub fs) :
    KeyImpliesPub (saveCertificateFromString E s fs).2 := by
  rw [saveCertificateFromString]
  cases hd : pemDecode E (.raw s) with
  | none => exact hinv
  | some blk =>
    rw [writeFile]
    by_cases hw : E.writeFileFails "device.crt"
    · rw [if_pos hw]
      exact hinv
    · rw [if_neg hw]
      cases hl : FS.lookup fs "device.crt"
      · exact keyImpliesPub_insert fs "device.crt" _
          string_key_ne_crt string_pub_ne_crt hinv
      · exact keyImpliesPub_insert fs "device.crt" _
          string_key_ne_crt string_pub_ne_crt hinv

/-- Claim C9 (amended): in every state reachable from an empty crypto
directory through the public operations under environments in which file
removals do not fail (file writes may still fail mid-operation), the presence
of the private-key file `device.key` implies the presence of the public-key
file `device.pub` — because `ensureKeyPair` writes the public key before
creating the private-key file. -/
theorem C9_key_implies_pub (fs : FS) (h : ReachNR fs) : KeyImpliesPub fs := by
  induction h with
  | empty => exact keyImpliesPub_nil
  | clear E fs hnr hr ih => exact clearCrypto_preserves_inv E fs hnr ih
  | ensureKey E fs hnr hr ih => exact ensureKeyPair_preserves_inv E fs hnr ih
  | ensureCsr E d fs hnr hr ih => exact ensureCSR_preserves_inv E d fs hnr ih
  | storeCert E s fs hr ih => exact saveCert_preserves_inv E s fs ih

/-- Counterexample to C9 as stated: the public operations can reach (from the
empty directory) a state holding the private-key file but not the public-key
file — run `ensureKeyPair`, then `ClearCrypto` in an environment where the
removal of `device.key` fails: `device.pub` is removed first, then the removal
of `device.key` fails, leaving the key file without the public-key file. -/
theorem C9_counterexample :
    Reach [("device.key", ⟨.pemFile [⟨"RSA PRIVATE KEY", .pkcs1 ⟨1, 2048⟩⟩], 438⟩)]
    ∧ (FS.lookup [("device.key", ⟨.pemFile [⟨"RSA PRIVATE KEY", .pkcs1 ⟨1, 2048⟩⟩], 438⟩)]
        "device.key").isSome = true
    ∧ FS.lookup [("device.key", ⟨.pemFile [⟨"RSA PRIVATE KEY", .pkcs1 ⟨1, 2048⟩⟩], 438⟩)]
        "device.pub" = none := by
  refine ⟨?_, by rfl, by rfl⟩
  have h1 : Reach (ensureKeyPair testEnv []).2 := Reach.ensureKey testEnv [] Reach.empty
  have h2 : Reach (clearCrypto envRemoveKeyFails (ensureKeyPair testEnv []).2).2 :=
    Reach.clear envRemoveKeyFails _ h1
  have he : (clearCrypto envRemoveKeyFails (ensureKeyPair testEnv []).2).2
      = [("device.key", ⟨.pemFile [⟨"RSA PRIVATE KEY", .pkcs1 ⟨1, 2048⟩⟩], 438⟩)] := by
    decide
  rw [he] at h2
  exact h2

/-- Witness for C9 (amended): the invariant holds on the empty directory and
on the state produced by a concrete `ensureKeyPair` run. -/
theorem C9_witness :
    KeyImpliesPub [] ∧ KeyImpliesPub (ensureKeyPair testEnv []).2 :=
  ⟨C9_key_implies_pub [] ReachNR.empty,
   C9_key_implies_pub (ensureKeyPair testEnv []).2
     (ReachNR.ensureKey testEnv [] (fun _ => rfl) ReachNR.empty)⟩

end Astarte
